import Mathlib

/-!
Verification of the excitation-to-activation core of the Hill-type muscle
model notebook (`hilltype_muscle_model.ipynb`).  The numerical kernel is
embedded over `ℚ` with exact rational constants (`0.2 = 1/5`,
`0.001 = 1/1000`, `0.080 = 8/100`, `dt = 1/10000`), so every definition is
executable and every comparison decidable.
-/

namespace HillModel

/-- Fixed pulse start time (0.2 time units), the constant `pulse_start`
inside `get_u`. -/
def pulse_start : ℚ := 1/5

/-- Excitation generator `get_u(t, pulse_amplitude, pulse_duration)`:
returns `pulse_amplitude` when `pulse_start < t < pulse_start + pulse_duration`
and `0` otherwise. -/
def get_u (t pulse_amplitude pulse_duration : ℚ) : ℚ :=
  if pulse_start < t ∧ t < pulse_start + pulse_duration then pulse_amplitude else 0

/-- Activation time constant `t_act = 0.001 s` from `tau`. -/
def t_act : ℚ := 1/1000

/-- Deactivation time constant `t_deact = 0.080 s` from `tau`. -/
def t_deact : ℚ := 8/100

/-- Effective time constant `tau(a, u)`: the activating branch
`t_act * (0.5 + 1.5 * a)` when `u > a`, else the deactivating branch
`t_deact / (0.5 + 1.5 * a)`. -/
def tau (a u : ℚ) : ℚ :=
  if a < u then t_act * (1/2 + 3/2 * a) else t_deact / (1/2 + 3/2 * a)

/-- ODE right-hand side `dydt(y, t, pulse_amplitude, pulse_duration)`:
with `a = y` and `u = get_u(t, ...)`, returns `(u - a) / tau(a, u)`. -/
def dydt (y t pulse_amplitude pulse_duration : ℚ) : ℚ :=
  (get_u t pulse_amplitude pulse_duration - y) /
    tau y (get_u t pulse_amplitude pulse_duration)

/-- Fixed internal step size `dt = 0.0001` from `do_it`. -/
def dt : ℚ := 1/10000

/-- Initial condition `a0 = 0` from `do_it`. -/
def a0 : ℚ := 0

/-- Time grid `t = np.arange(total_duration/dt) * dt` from `do_it`:
`np.arange(x)` for a scalar `x` yields `⌈x⌉₊` values `0, 1, 2, ...`,
each then scaled by `dt`. -/
def t_grid (total_duration : ℚ) : List ℚ :=
  (List.range ⌈total_duration / dt⌉₊).map (fun i : ℕ => (i : ℚ) * dt)

/-- One explicit integration step of step size `dt` of the step relation
defined by the right-hand side `dydt` (forward Euler). -/
def eulerStep (a t pulse_amplitude pulse_duration : ℚ) : ℚ :=
  a + dt * dydt a t pulse_amplitude pulse_duration

/-- Activation trace generated by iterating `eulerStep` from `a0` along the
uniform grid `t_i = i * dt`. -/
def eulerTrace (pulse_amplitude pulse_duration : ℚ) : ℕ → ℚ
  | 0 => a0
  | n + 1 => eulerStep (eulerTrace pulse_amplitude pulse_duration n)
      ((n : ℚ) * dt) pulse_amplitude pulse_duration

/-- Right-hand side as a function of the pair `(a, u)`. -/
def rhs (a u : ℚ) : ℚ := (u - a) / tau a u

end HillModel

namespace HillModel

/-- C1: `get_u` returns `pulse_amplitude` exactly on the open interval
`0.2 < t < 0.2 + pulse_duration` and `0` everywhere else, in particular at
both closed endpoints `t = 0.2` and `t = 0.2 + pulse_duration`. -/
theorem getU_pulse_spec (t pulse_amplitude pulse_duration : ℚ) :
    (1/5 < t → t < 1/5 + pulse_duration →
      get_u t pulse_amplitude pulse_duration = pulse_amplitude) ∧
    (¬ (1/5 < t ∧ t < 1/5 + pulse_duration) →
      get_u t pulse_amplitude pulse_duration = 0) ∧
    get_u (1/5) pulse_amplitude pulse_duration = 0 ∧
    get_u (1/5 + pulse_duration) pulse_amplitude pulse_duration = 0 := by
  unfold get_u pulse_start
  refine ⟨fun h1 h2 => ?_, fun h => ?_, ?_, ?_⟩
  · rw [if_pos ⟨h1, h2⟩]
  · rw [if_neg h]
  · rw [if_neg]; rintro ⟨h, -⟩; exact lt_irrefl _ h
  · rw [if_neg]; rintro ⟨-, h⟩; exact lt_irrefl _ h

/-- C1 witness: concrete instances of `getU_pulse_spec`. -/
theorem getU_pulse_spec_witness :
    get_u (1/4) 1 (1/10) = 1 ∧ get_u 0 1 (1/10) = 0 := by
  constructor
  · exact (getU_pulse_spec (1/4) 1 (1/10)).1 (by norm_num) (by norm_num)
  · exact (getU_pulse_spec 0 1 (1/10)).2.1 (by norm_num)

/-- C2: `tau` selects the activating branch `t_act * (0.5 + 1.5 a)` exactly
when `u > a` and the deactivating branch `t_deact / (0.5 + 1.5 a)` exactly
when `u ≤ a`, with `t_act = 0.001` and `t_deact = 0.080`. -/
theorem tau_branch_spec (a u : ℚ) :
    (a < u → tau a u = 1/1000 * (1/2 + 3/2 * a)) ∧
    (u ≤ a → tau a u = (8/100) / (1/2 + 3/2 * a)) ∧
    t_act = 1/1000 ∧ t_deact = 8/100 := by
  unfold tau t_act t_deact
  refine ⟨fun h => ?_, fun h => ?_, rfl, rfl⟩
  · rw [if_pos h]
  · rw [if_neg (not_lt.mpr h)]

/-- C2 witness: concrete instances of `tau_branch_spec`. -/
theorem tau_branch_spec_witness :
    tau 0 1 = 1/1000 * (1/2 + 3/2 * 0) ∧
    tau 1 0 = (8/100) / (1/2 + 3/2 * 1) := by
  exact ⟨(tau_branch_spec 0 1).1 (by norm_num),
    (tau_branch_spec 1 0).2.1 (by norm_num)⟩

lemma c_pos (a : ℚ) (ha : 0 ≤ a) : 0 < 1/2 + 3/2 * a := by linarith

lemma tau_pos (a u : ℚ) (ha : 0 ≤ a) : 0 < tau a u := by
  unfold tau t_act t_deact
  split
  · nlinarith
  · exact div_pos (by norm_num) (c_pos a ha)

/-- Product form of the right-hand side: dividing by either branch of `tau`
is multiplying by the reciprocal factor. -/
lemma rhs_eq_mul (a u : ℚ) (ha : 0 ≤ a) :
    rhs a u = (u - a) *
      (if a < u then 1000 / (1/2 + 3/2 * a) else 25/2 * (1/2 + 3/2 * a)) := by
  have hc : (1/2 + 3/2 * a) ≠ 0 := ne_of_gt (c_pos a ha)
  unfold rhs tau t_act t_deact
  split
  · field_simp
  · field_simp; ring

lemma dydt_eq_rhs (y t pulse_amplitude pulse_duration : ℚ) :
    dydt y t pulse_amplitude pulse_duration =
      rhs y (get_u t pulse_amplitude pulse_duration) := rfl

lemma get_u_mem (t pulse_amplitude pulse_duration : ℚ)
    (h0 : 0 ≤ pulse_amplitude) (h1 : pulse_amplitude ≤ 1) :
    0 ≤ get_u t pulse_amplitude pulse_duration ∧
      get_u t pulse_amplitude pulse_duration ≤ 1 := by
  unfold get_u
  split
  · exact ⟨h0, h1⟩
  · norm_num

/-- C3: the right-hand side `dydt(a, t, ...)` equals `(u - a) / tau(a, u)`
with `u = get_u(t, ...)`, and the initial condition of the solve is
`a0 = 0`. -/
theorem dydt_spec (y t pulse_amplitude pulse_duration : ℚ) :
    dydt y t pulse_amplitude pulse_duration =
      (get_u t pulse_amplitude pulse_duration - y) /
        tau y (get_u t pulse_amplitude pulse_duration) ∧
    dydt y t pulse_amplitude pulse_duration =
      rhs y (get_u t pulse_amplitude pulse_duration) ∧
    a0 = 0 := by
  exact ⟨rfl, rfl, rfl⟩

end HillModel

namespace HillModel

/-- C5: on the physical domain `a ∈ [0,1]`, the right-hand side `dydt` is
non-negative whenever `u(t) > a` and non-positive whenever `u(t) ≤ a`. -/
theorem dydt_sign (a t pulse_amplitude pulse_duration : ℚ)
    (ha0 : 0 ≤ a) (ha1 : a ≤ 1) :
    (a < get_u t pulse_amplitude pulse_duration →
      0 ≤ dydt a t pulse_amplitude pulse_duration) ∧
    (get_u t pulse_amplitude pulse_duration ≤ a →
      dydt a t pulse_amplitude pulse_duration ≤ 0) := by
  have htau : 0 < tau a (get_u t pulse_amplitude pulse_duration) :=
    tau_pos a _ ha0
  rw [dydt_eq_rhs]
  unfold rhs
  constructor
  · intro h
    exact div_nonneg (by linarith) htau.le
  · intro h
    exact div_nonpos_of_nonpos_of_nonneg (by linarith) htau.le

/-- C5 witness: concrete instances of `dydt_sign` on each branch. -/
theorem dydt_sign_witness :
    0 ≤ dydt 0 (1/4) 1 (1/10) ∧ dydt 1 0 1 (1/10) ≤ 0 := by
  constructor
  · exact (dydt_sign 0 (1/4) 1 (1/10) le_rfl zero_le_one).1
      (by norm_num [get_u, pulse_start])
  · exact (dydt_sign 1 0 1 (1/10) zero_le_one le_rfl).2
      (by norm_num [get_u, pulse_start])

/-- C9: for every `a ≥ 0` the denominator `0.5 + 1.5 a` is nonzero, the
effective time constant `tau(a, u)` is strictly positive (hence nonzero),
so the division in the right-hand side is safe for every `a ≥ 0`. -/
theorem tau_total_pos (a u : ℚ) (ha : 0 ≤ a) :
    (1/2 + 3/2 * a) ≠ 0 ∧ 0 < tau a u ∧ tau a u ≠ 0 := by
  refine ⟨ne_of_gt (c_pos a ha), tau_pos a u ha, ne_of_gt (tau_pos a u ha)⟩

/-- C9 witness: concrete instance of `tau_total_pos`. -/
theorem tau_total_pos_witness :
    (1/2 + 3/2 * (0:ℚ)) ≠ 0 ∧ 0 < tau 0 0 ∧ tau 0 0 ≠ 0 :=
  tau_total_pos 0 0 le_rfl

/-- C10: with `pulse_duration ≤ 0` the open pulse interval is empty and
`get_u` returns `0` for every time and amplitude (no validation, no
error). -/
theorem getU_degenerate (t pulse_amplitude pulse_duration : ℚ)
    (hdur : pulse_duration ≤ 0) :
    ¬ (1/5 < t ∧ t < 1/5 + pulse_duration) ∧
      get_u t pulse_amplitude pulse_duration = 0 := by
  have hempty : ¬ (1/5 < t ∧ t < 1/5 + pulse_duration) := by
    rintro ⟨h1, h2⟩; linarith
  refine ⟨hempty, ?_⟩
  unfold get_u pulse_start
  rw [if_neg hempty]

/-- C10 witness: concrete instance of `getU_degenerate`. -/
theorem getU_degenerate_witness :
    ¬ ((1:ℚ)/5 < 1/4 ∧ (1:ℚ)/4 < 1/5 + (-1/10)) ∧ get_u (1/4) 1 (-1/10) = 0 :=
  getU_degenerate (1/4) 1 (-1/10) (by norm_num)

lemma eulerTrace_zero_amp (pulse_duration : ℚ) (n : ℕ) :
    eulerTrace 0 pulse_duration n = 0 := by
  induction n with
  | zero => rfl
  | succ m ih =>
      unfold eulerTrace eulerStep
      rw [ih, dydt_eq_rhs]
      unfold rhs
      have hg : get_u ((m : ℚ) * dt) 0 pulse_duration = 0 := by
        unfold get_u; split <;> rfl
      rw [hg]
      norm_num

/-- C6: with `pulse_amplitude = 0` the excitation vanishes identically,
`a = 0` is an equilibrium of `dydt`, and the trace started from `a0 = 0`
stays at exactly `0` at every step. -/
theorem zero_amplitude_trace (t pulse_duration : ℚ) (n : ℕ) :
    get_u t 0 pulse_duration = 0 ∧ dydt 0 t 0 pulse_duration = 0 ∧
      eulerTrace 0 pulse_duration n = 0 := by
  have hg : get_u t 0 pulse_duration = 0 := by
    unfold get_u; split <;> rfl
  refine ⟨hg, ?_, eulerTrace_zero_amp pulse_duration n⟩
  rw [dydt_eq_rhs]
  unfold rhs
  rw [hg]
  norm_num

end HillModel

namespace HillModel

lemma eulerStep_mem (a t pulse_amplitude pulse_duration : ℚ)
    (ha0 : 0 ≤ a) (ha1 : a ≤ 1)
    (h0 : 0 ≤ pulse_amplitude) (h1 : pulse_amplitude ≤ 1) :
    0 ≤ eulerStep a t pulse_amplitude pulse_duration ∧
      eulerStep a t pulse_amplitude pulse_duration ≤ 1 := by
  obtain ⟨hu0, hu1⟩ := get_u_mem t pulse_amplitude pulse_duration h0 h1
  set u := get_u t pulse_amplitude pulse_duration with hu
  have hc : 0 < 1/2 + 3/2 * a := c_pos a ha0
  unfold eulerStep dt
  rw [dydt_eq_rhs, ← hu, rhs_eq_mul a u ha0]
  by_cases hau : a < u
  · rw [if_pos hau]
    set h := 1000 / (1/2 + 3/2 * a) with hh
    have hhpos : 0 < h := div_pos (by norm_num) hc
    have hh2000 : h ≤ 2000 := by
      rw [hh, div_le_iff₀ hc]; linarith
    constructor
    · nlinarith
    · have e1 : (u - a) * h ≤ (1 - a) * h :=
        mul_le_mul_of_nonneg_right (by linarith) hhpos.le
      have e2 : (1 - a) * h ≤ (1 - a) * 2000 :=
        mul_le_mul_of_nonneg_left hh2000 (by linarith)
      linarith
  · rw [if_neg hau]
    push_neg at hau
    constructor
    · have e1 : (a - u) * (1/2 + 3/2 * a) ≤ a * (1/2 + 3/2 * a) :=
        mul_le_mul_of_nonneg_right (by linarith) hc.le
      have e2 : a * (1/2 + 3/2 * a) ≤ a * 2 :=
        mul_le_mul_of_nonneg_left (by linarith) ha0
      have e3 : (u - a) * (25/2 * (1/2 + 3/2 * a)) =
          -(25/2) * ((a - u) * (1/2 + 3/2 * a)) := by ring
      rw [e3]; linarith
    · have e1 : (u - a) * (25/2 * (1/2 + 3/2 * a)) ≤ 0 := by nlinarith
      linarith

/-- C4: activation stays in `[0,1]`: for `pulse_amplitude ∈ [0,1]`, the
interval `[0,1]` is preserved by every integration step of the explicit
step relation defined by `dydt`, and consequently every point of the trace
started from `a0 = 0` lies in `[0,1]`. -/
theorem activation_invariant (pulse_amplitude pulse_duration t a : ℚ)
    (h0 : 0 ≤ pulse_amplitude) (h1 : pulse_amplitude ≤ 1)
    (ha0 : 0 ≤ a) (ha1 : a ≤ 1) (n : ℕ) :
    (0 ≤ eulerStep a t pulse_amplitude pulse_duration ∧
      eulerStep a t pulse_amplitude pulse_duration ≤ 1) ∧
    (0 ≤ eulerTrace pulse_amplitude pulse_duration n ∧
      eulerTrace pulse_amplitude pulse_duration n ≤ 1) := by
  refine ⟨eulerStep_mem a t pulse_amplitude pulse_duration ha0 ha1 h0 h1, ?_⟩
  induction n with
  | zero => exact ⟨le_rfl, zero_le_one⟩
  | succ m ih =>
      exact eulerStep_mem _ _ _ _ ih.1 ih.2 h0 h1

/-- C4 witness: concrete instance of `activation_invariant`. -/
theorem activation_invariant_witness :
    0 ≤ eulerTrace 1 (1/5) 3 ∧ eulerTrace 1 (1/5) 3 ≤ 1 :=
  (activation_invariant 1 (1/5) 0 0 zero_le_one le_rfl le_rfl zero_le_one 3).2

end HillModel

namespace HillModel

lemma h1_pos (a : ℚ) (ha : 0 ≤ a) : 0 < 1000 / (1/2 + 3/2 * a) :=
  div_pos (by norm_num) (c_pos a ha)

lemma h1_le (a : ℚ) (ha : 0 ≤ a) : 1000 / (1/2 + 3/2 * a) ≤ 2000 := by
  rw [div_le_iff₀ (c_pos a ha)]; linarith

lemma h1_lip (a a' : ℚ) (ha : 0 ≤ a) (hb : 0 ≤ a') :
    |1000 / (1/2 + 3/2 * a) - 1000 / (1/2 + 3/2 * a')| ≤ 6000 * |a - a'| := by
  have hc : 0 < 1/2 + 3/2 * a := c_pos a ha
  have hc' : 0 < 1/2 + 3/2 * a' := c_pos a' hb
  have key : 1000 / (1/2 + 3/2 * a) - 1000 / (1/2 + 3/2 * a')
      = 1500 * (a' - a) / ((1/2 + 3/2 * a) * (1/2 + 3/2 * a')) := by
    field_simp
    ring
  rw [key, abs_div, abs_of_pos (mul_pos hc hc'),
    div_le_iff₀ (mul_pos hc hc'), abs_mul]
  have habs : |(1500 : ℚ)| = 1500 := by norm_num
  rw [habs, abs_sub_comm a' a]
  have hcc : 1/4 ≤ (1/2 + 3/2 * a) * (1/2 + 3/2 * a') := by nlinarith
  nlinarith [mul_le_mul_of_nonneg_left hcc (abs_nonneg (a - a'))]

lemma h2_lip (a a' : ℚ) :
    |25/2 * (1/2 + 3/2 * a) - 25/2 * (1/2 + 3/2 * a')| = 75/4 * |a - a'| := by
  have e : 25/2 * (1/2 + 3/2 * a) - 25/2 * (1/2 + 3/2 * a')
      = 75/4 * (a - a') := by ring
  rw [e, abs_mul]
  norm_num

lemma rhs_lip_act (a u a' u' : ℚ) (ha0 : 0 ≤ a)
    (hb0 : 0 ≤ a') (hb1 : a' ≤ 1) (hv0 : 0 ≤ u') (hv1 : u' ≤ 1)
    (hau : a < u) (hbv : a' < u') :
    |rhs a u - rhs a' u'| ≤ 8000 * (|a - a'| + |u - u'|) := by
  rw [rhs_eq_mul a u ha0, rhs_eq_mul a' u' hb0, if_pos hau, if_pos hbv]
  set h := 1000 / (1/2 + 3/2 * a) with hh
  set h' := 1000 / (1/2 + 3/2 * a') with hh'
  have e : (u - a) * h - (u' - a') * h'
      = ((u - u') + (a' - a)) * h + (u' - a') * (h - h') := by ring
  have t1 : |(u - u') + (a' - a)| ≤ |u - u'| + |a - a'| := by
    calc |(u - u') + (a' - a)| ≤ |u - u'| + |a' - a| := abs_add _ _
      _ = |u - u'| + |a - a'| := by rw [abs_sub_comm a' a]
  have hle : |h| ≤ 2000 := by
    rw [hh, abs_of_pos (h1_pos a ha0)]; exact h1_le a ha0
  have hua : |u' - a'| ≤ 1 := abs_le.mpr ⟨by linarith, by linarith⟩
  have hlip : |h - h'| ≤ 6000 * |a - a'| := h1_lip a a' ha0 hb0
  calc |(u - a) * h - (u' - a') * h'|
      = |((u - u') + (a' - a)) * h + (u' - a') * (h - h')| := by rw [e]
    _ ≤ |((u - u') + (a' - a)) * h| + |(u' - a') * (h - h')| := abs_add _ _
    _ = |(u - u') + (a' - a)| * |h| + |u' - a'| * |h - h'| := by
        rw [abs_mul, abs_mul]
    _ ≤ (|u - u'| + |a - a'|) * 2000 + 1 * (6000 * |a - a'|) := by
        have q1 : |(u - u') + (a' - a)| * |h| ≤ (|u - u'| + |a - a'|) * 2000 :=
          mul_le_mul t1 hle (abs_nonneg _) (by positivity)
        have q2 : |u' - a'| * |h - h'| ≤ 1 * (6000 * |a - a'|) := by
          have := mul_le_mul hua hlip (abs_nonneg _) zero_le_one
          linarith
        linarith
    _ ≤ 8000 * (|a - a'| + |u - u'|) := by
        have n1 := abs_nonneg (u - u')
        have n2 := abs_nonneg (a - a')
        linarith

lemma rhs_lip_deact (a u a' u' : ℚ) (ha0 : 0 ≤ a) (ha1 : a ≤ 1)
    (hb0 : 0 ≤ a') (hb1 : a' ≤ 1) (hv0 : 0 ≤ u') (hv1 : u' ≤ 1)
    (hau : u ≤ a) (hbv : u' ≤ a') :
    |rhs a u - rhs a' u'| ≤ 8000 * (|a - a'| + |u - u'|) := by
  rw [rhs_eq_mul a u ha0, rhs_eq_mul a' u' hb0,
    if_neg (not_lt.mpr hau), if_neg (not_lt.mpr hbv)]
  set h := 25/2 * (1/2 + 3/2 * a) with hh
  set h' := 25/2 * (1/2 + 3/2 * a') with hh'
  have e : (u - a) * h - (u' - a') * h'
      = ((u - u') + (a' - a)) * h + (u' - a') * (h - h') := by ring
  have t1 : |(u - u') + (a' - a)| ≤ |u - u'| + |a - a'| := by
    calc |(u - u') + (a' - a)| ≤ |u - u'| + |a' - a| := abs_add _ _
      _ = |u - u'| + |a - a'| := by rw [abs_sub_comm a' a]
  have hle : |h| ≤ 25 := by
    rw [hh, abs_of_pos (by nlinarith [c_pos a ha0])]
    linarith
  have hua : |u' - a'| ≤ 1 := abs_le.mpr ⟨by linarith, by linarith⟩
  have hlip : |h - h'| ≤ 75/4 * |a - a'| := (h2_lip a a').le
  calc |(u - a) * h - (u' - a') * h'|
      = |((u - u') + (a' - a)) * h + (u' - a') * (h - h')| := by rw [e]
    _ ≤ |((u - u') + (a' - a)) * h| + |(u' - a') * (h - h')| := abs_add _ _
    _ = |(u - u') + (a' - a)| * |h| + |u' - a'| * |h - h'| := by
        rw [abs_mul ((u - u') + (a' - a)) h, abs_mul (u' - a') (h - h')]
    _ ≤ (|u - u'| + |a - a'|) * 25 + 1 * (75/4 * |a - a'|) := by
        have q1 : |(u - u') + (a' - a)| * |h| ≤ (|u - u'| + |a - a'|) * 25 :=
          mul_le_mul t1 hle (abs_nonneg _) (by positivity)
        have q2 : |u' - a'| * |h - h'| ≤ 1 * (75/4 * |a - a'|) := by
          have := mul_le_mul hua hlip (abs_nonneg _) zero_le_one
          linarith
        linarith
    _ ≤ 8000 * (|a - a'| + |u - u'|) := by
        have n1 := abs_nonneg (u - u')
        have n2 := abs_nonneg (a - a')
        linarith

lemma rhs_lip_mixed (a u a' u' : ℚ) (ha0 : 0 ≤ a) (ha1 : a ≤ 1)
    (hb0 : 0 ≤ a') (hb1 : a' ≤ 1)
    (hau : a < u) (hbv : u' ≤ a') :
    |rhs a u - rhs a' u'| ≤ 2025 * (|a - a'| + |u - u'|) := by
  rw [rhs_eq_mul a u ha0, rhs_eq_mul a' u' hb0,
    if_pos hau, if_neg (not_lt.mpr hbv)]
  have hhn : 0 ≤ 25/2 * (1/2 + 3/2 * a') := by nlinarith [c_pos a' hb0]
  have hpge : 0 ≤ (u - a) * (1000 / (1/2 + 3/2 * a)) :=
    mul_nonneg (by linarith) (h1_pos a ha0).le
  have hqle : (u' - a') * (25/2 * (1/2 + 3/2 * a')) ≤ 0 := by
    nlinarith [mul_nonneg (show (0:ℚ) ≤ a' - u' by linarith) hhn]
  have l1 := le_abs_self (u - u')
  have l2 := le_abs_self (a' - a)
  have l3 : |a' - a| = |a - a'| := abs_sub_comm a' a
  have s1 : u - a ≤ |a - a'| + |u - u'| := by linarith
  have s2 : a' - u' ≤ |a - a'| + |u - u'| := by linarith
  have b1 : (u - a) * (1000 / (1/2 + 3/2 * a))
      ≤ (|a - a'| + |u - u'|) * 2000 :=
    mul_le_mul s1 (h1_le a ha0) (h1_pos a ha0).le (by positivity)
  have b2 : (a' - u') * (25/2 * (1/2 + 3/2 * a'))
      ≤ (|a - a'| + |u - u'|) * 25 := by
    have hh : 25/2 * (1/2 + 3/2 * a') ≤ 25 := by linarith
    exact mul_le_mul s2 hh hhn (by positivity)
  have habs : |(u - a) * (1000 / (1/2 + 3/2 * a))
        - (u' - a') * (25/2 * (1/2 + 3/2 * a'))|
      = (u - a) * (1000 / (1/2 + 3/2 * a))
        - (u' - a') * (25/2 * (1/2 + 3/2 * a')) :=
    abs_of_nonneg (by linarith)
  have e : -((u' - a') * (25/2 * (1/2 + 3/2 * a')))
      = (a' - u') * (25/2 * (1/2 + 3/2 * a')) := by ring
  rw [habs]
  linarith [b1, b2, e]

/-- C7: on `[0,1] × [0,1]` the right-hand side `(a, u) ↦ (u − a) / tau(a, u)`
is Lipschitz continuous (with explicit constant 8000), and the two branch
expressions agree at the switching surface `u = a`, both evaluating to `0`,
so the branch switch introduces no discontinuity in the value. -/
theorem rhs_lipschitz (a u a' u' : ℚ)
    (ha0 : 0 ≤ a) (ha1 : a ≤ 1) (hu0 : 0 ≤ u) (hu1 : u ≤ 1)
    (hb0 : 0 ≤ a') (hb1 : a' ≤ 1) (hv0 : 0 ≤ u') (hv1 : u' ≤ 1) :
    |rhs a u - rhs a' u'| ≤ 8000 * (|a - a'| + |u - u'|) ∧
    rhs a a = 0 ∧
    (a - a) / (t_act * (1/2 + 3/2 * a)) = 0 ∧
    (a - a) / (t_deact / (1/2 + 3/2 * a)) = 0 := by
  refine ⟨?_, by simp [rhs], by simp, by simp⟩
  rcases lt_or_le a u with hau | hau
  · rcases lt_or_le a' u' with hbv | hbv
    · exact rhs_lip_act a u a' u' ha0 hb0 hb1 hv0 hv1 hau hbv
    · have hmx := rhs_lip_mixed a u a' u' ha0 ha1 hb0 hb1 hau hbv
      have n1 := abs_nonneg (u - u')
      have n2 := abs_nonneg (a - a')
      linarith
  · rcases lt_or_le a' u' with hbv | hbv
    · have hmx := rhs_lip_mixed a' u' a u hb0 hb1 ha0 ha1 hbv hau
      have h3 : |a' - a| = |a - a'| := abs_sub_comm a' a
      have h4 : |u' - u| = |u - u'| := abs_sub_comm u' u
      have h5 : |rhs a' u' - rhs a u| = |rhs a u - rhs a' u'| :=
        abs_sub_comm _ _
      have n1 := abs_nonneg (u - u')
      have n2 := abs_nonneg (a - a')
      linarith
    · exact rhs_lip_deact a u a' u' ha0 ha1 hb0 hb1 hv0 hv1 hau hbv

/-- C7 witness: concrete instance of `rhs_lipschitz` across the two
branches. -/
theorem rhs_lipschitz_witness :
    |rhs 0 1 - rhs 1 0| ≤ 8000 * (|(0:ℚ) - 1| + |(1:ℚ) - 0|) ∧ rhs 0 0 = 0 :=
  ⟨(rhs_lipschitz 0 1 1 0 le_rfl zero_le_one zero_le_one le_rfl
      zero_le_one le_rfl le_rfl zero_le_one).1,
    (rhs_lipschitz 0 0 0 0 le_rfl zero_le_one le_rfl zero_le_one
      le_rfl zero_le_one le_rfl zero_le_one).2.1⟩

end HillModel

namespace HillModel

lemma t_grid_length (total_duration : ℚ) :
    (t_grid total_duration).length = ⌈total_duration / dt⌉₊ := by
  unfold t_grid
  rw [List.length_map, List.length_range]

lemma t_grid_ceil_example : ⌈(3/20000 : ℚ) / dt⌉₊ = 2 := by
  rw [show (3/20000 : ℚ) / dt = 3/2 by norm_num [dt],
    Nat.ceil_eq_iff (by norm_num)]
  norm_num

/-- C8 counterexample: at `total_duration = 3/20000` the ratio
`total_duration / dt = 3/2` is not an integer; the grid built by
`np.arange(total_duration/dt) * dt` has `⌈3/2⌉₊ = 2` points, not the
integer part `⌊3/2⌋ = 1`, and its last point is `1/10000`, which differs
from `total_duration - dt = 1/20000`. -/
theorem t_grid_floor_counterexample :
    ¬ ((t_grid (3/20000)).length = Int.toNat ⌊(3/20000 : ℚ) / dt⌋ ∧
       (t_grid (3/20000)).getLast? = some ((3/20000 : ℚ) - dt)) := by
  rintro ⟨h, -⟩
  rw [t_grid_length, t_grid_ceil_example,
    show ⌊(3/20000 : ℚ) / dt⌋ = 1 by
      rw [show (3/20000 : ℚ) / dt = 3/2 by norm_num [dt], Int.floor_eq_iff]
      norm_num] at h
  norm_num at h

/-- C8 (amended): the grid starts at 0, its `i`-th element is `i * dt` with
fixed `dt = 0.0001`, it is strictly increasing, and its length is
`⌈total_duration / dt⌉₊` (the semantics of `np.arange`), which coincides
with the integer part of `total_duration / dt` exactly when that ratio is
an integer; in that case (`total_duration = n * dt`, `n ≥ 1`) the last
point is `total_duration - dt`, not `total_duration`. -/
theorem t_grid_spec (total_duration : ℚ) :
    (t_grid total_duration).length = ⌈total_duration / dt⌉₊ ∧
    (∀ i : ℕ, ∀ h : i < (t_grid total_duration).length,
      (t_grid total_duration)[i] = (i : ℚ) * dt) ∧
    (∀ i j : ℕ, ∀ hi : i < (t_grid total_duration).length,
      ∀ hj : j < (t_grid total_duration).length, i < j →
      (t_grid total_duration)[i] < (t_grid total_duration)[j]) ∧
    (0 < total_duration → (t_grid total_duration).head? = some 0) ∧
    (∀ n : ℕ, 1 ≤ n → total_duration = (n : ℚ) * dt →
      (t_grid total_duration).getLast? = some (total_duration - dt)) := by
  have hget : ∀ i : ℕ, ∀ h : i < (t_grid total_duration).length,
      (t_grid total_duration)[i] = (i : ℚ) * dt := by
    intro i h
    unfold t_grid
    simp
  refine ⟨t_grid_length total_duration, hget, ?_, ?_, ?_⟩
  · intro i j hi hj hij
    rw [hget i hi, hget j hj]
    have hij' : (i : ℚ) < (j : ℚ) := by exact_mod_cast hij
    have hdt : (0 : ℚ) < dt := by norm_num [dt]
    exact mul_lt_mul_of_pos_right hij' hdt
  · intro hpos
    have hn : 0 < ⌈total_duration / dt⌉₊ := by
      rw [Nat.ceil_pos]
      exact div_pos hpos (by norm_num [dt])
    obtain ⟨m, hm⟩ :=
      Nat.exists_eq_succ_of_ne_zero (Nat.pos_iff_ne_zero.mp hn)
    unfold t_grid
    rw [hm, List.range_succ_eq_map]
    simp
  · intro n hn htot
    have hq : total_duration / dt = (n : ℚ) := by
      rw [htot, mul_div_assoc, div_self (show dt ≠ 0 by norm_num [dt]),
        mul_one]
    obtain ⟨m, hm⟩ := Nat.exists_eq_succ_of_ne_zero (by omega : n ≠ 0)
    have hlast : (m : ℚ) * dt = total_duration - dt := by
      rw [htot, hm]
      push_cast
      ring
    unfold t_grid
    rw [hq, Nat.ceil_natCast, hm, List.range_succ, List.map_append]
    simp [hlast]

/-- C8 witness: at `total_duration = 2 * dt` the grid ends at
`total_duration - dt`, via `t_grid_spec`. -/
theorem t_grid_spec_witness :
    (t_grid (2/10000)).getLast? = some ((2/10000 : ℚ) - dt) :=
  (t_grid_spec (2/10000)).2.2.2.2 2 (by norm_num)
    (by push_cast; norm_num [dt])

end HillModel
